import Mathlib

/-!
# Verification of the `@se-oss/base64` codec engine

Shallow embedding of the Base64 codec. JavaScript strings are modelled as
lists of Unicode code points (`List Nat`); byte sequences (`Uint8Array`)
are lists of naturals below 256. The embedded engine is the library's
self-contained fallback implementation (`src/encode.ts`, `src/decode.ts`,
`src/constants.ts`), which the design notes designate as the single source
of truth for bit-level behaviour; the UTF-8 text conversion performed by
the platform branches (`Buffer`/`TextEncoder`/`TextDecoder`) is an external
collaborator and is modelled from the spec.
-/

set_option maxRecDepth 100000

namespace Base64

/-- Code points of a Lean string literal, used to write JS strings compactly. -/
def strOf (s : String) : List Nat := s.data.map Char.toNat

/-- The constant `B64_CHAR_SET` from `src/constants.ts`: the 64 alphabet
symbols followed by the padding symbol `=`. -/
def B64_CHAR_SET : List Nat :=
  strOf "ABCDEFGHIJKLMNOPQRSTUVWXYZabcdefghijklmnopqrstuvwxyz0123456789+/="

/-- JS `String.prototype.charAt`: a one-character string, or the empty
string when the index is out of range. -/
def charAt (s : List Nat) (i : Nat) : List Nat :=
  match s.drop i with
  | [] => []
  | c :: _ => [c]

/-- `chars.charAt` applied to the base64 character set. -/
def b64CharAt (n : Nat) : List Nat := charAt B64_CHAR_SET n

/-- The encoding loop of `fromUint8Array` (fallback branch of
`src/encode.ts`): each iteration consumes up to three bytes and appends the
four `chars.charAt` results; a missing `chr2`/`chr3` is read as `0`, and
`enc3`/`enc4` are forced to index 64 (the `=` symbol) when fewer than
2 resp. 3 bytes remain. -/
def encodeGroups : List Nat → List Nat
  | [] => []
  | [c1] =>
    b64CharAt (c1 >>> 2) ++ b64CharAt (((c1 &&& 3) <<< 4) ||| (0 >>> 4)) ++
      b64CharAt 64 ++ b64CharAt 64
  | [c1, c2] =>
    b64CharAt (c1 >>> 2) ++ b64CharAt (((c1 &&& 3) <<< 4) ||| (c2 >>> 4)) ++
      b64CharAt (((c2 &&& 15) <<< 2) ||| (0 >>> 6)) ++ b64CharAt 64
  | c1 :: c2 :: c3 :: rest =>
    b64CharAt (c1 >>> 2) ++ b64CharAt (((c1 &&& 3) <<< 4) ||| (c2 >>> 4)) ++
      b64CharAt (((c2 &&& 15) <<< 2) ||| (c3 >>> 6)) ++ b64CharAt (c3 &&& 63) ++
      encodeGroups rest

/-- The lookup table `B64_LOOKUP` applied to a `charAt` result: the index of
the character in `B64_CHAR_SET`, or `none` (JS `undefined`) for the empty
string or a character outside the table. -/
def b64Lookup (s : List Nat) : Option Nat :=
  match s with
  | [c] => B64_CHAR_SET.indexOf? c
  | _ => none

/-- JS coercion of a possibly-`undefined` lookup result in a bitwise
expression: `undefined` converts to `0`. -/
def undefOr0 : Option Nat → Nat
  | some n => n
  | none => 0

/-- One iteration of the decoding loop shared by `decode`/`toUint8Array`
(fallback branch of `src/decode.ts`): four symbol lookups produce
`chr1`, and `chr2`/`chr3` exactly when `enc3`/`enc4` is not the padding
index 64. Stored bytes are reduced mod 256 by the `Uint8Array` store. -/
def decGroup (s1 s2 s3 s4 : List Nat) : List Nat :=
  let e1 := b64Lookup s1
  let e2 := b64Lookup s2
  let e3 := b64Lookup s3
  let e4 := b64Lookup s4
  let chr1 := (undefOr0 e1 <<< 2) ||| (undefOr0 e2 >>> 4)
  let chr2 := ((undefOr0 e2 &&& 15) <<< 4) ||| (undefOr0 e3 >>> 2)
  let chr3 := ((undefOr0 e3 &&& 3) <<< 6) ||| undefOr0 e4
  [chr1 % 256] ++ (if e3 ≠ some 64 then [chr2 % 256] else []) ++
    (if e4 ≠ some 64 then [chr3 % 256] else [])

/-- The decoding while-loop: consumes four characters per iteration; reads
past the end of the string give the empty `charAt` result (and hence an
`undefined` lookup), exactly as in JS. -/
def decodeGroups : List Nat → List Nat
  | [] => []
  | [c1] => decGroup [c1] [] [] []
  | [c1, c2] => decGroup [c1] [c2] [] []
  | [c1, c2, c3] => decGroup [c1] [c2] [c3] []
  | c1 :: c2 :: c3 :: c4 :: rest => decGroup [c1] [c2] [c3] [c4] ++ decodeGroups rest

/-- `Base64EncodeOptions` from `src/typings.ts`. -/
structure Base64EncodeOptions where
  urlSafe : Bool := false
  omitPadding : Bool := false

/-- `Base64DecodeOptions` from `src/typings.ts`. -/
structure Base64DecodeOptions where
  urlSafe : Bool := false

/-- The global replacement of `+` by `-` on the encoder's URL-safe path. -/
def subPlusDash (c : Nat) : Nat := if c = 43 then 45 else c

/-- The global replacement of `/` by `_` on the encoder's URL-safe path. -/
def subSlashUnder (c : Nat) : Nat := if c = 47 then 95 else c

/-- The global replacement of `-` by `+` on the decoder's URL-safe path. -/
def subDashPlus (c : Nat) : Nat := if c = 45 then 43 else c

/-- The global replacement of `_` by `/` on the decoder's URL-safe path. -/
def subUnderSlash (c : Nat) : Nat := if c = 95 then 47 else c

/-- The character class `[A-Za-z0-9+/=]` used by the decoder's
sanitization regex. -/
def isB64SymbolOrPad (c : Nat) : Bool :=
  (65 ≤ c && c ≤ 90) || (97 ≤ c && c ≤ 122) || (48 ≤ c && c ≤ 57) ||
    c == 43 || c == 47 || c == 61

/-- `base64.replace(/[^A-Za-z0-9+\/=]/g, '')`: drop every character outside
the 65-symbol set. -/
def sanitize (s : List Nat) : List Nat := s.filter isB64SymbolOrPad

/-- The re-padding loop `while (base64.length % 4) base64 += '='`: append
`=` until the length is a multiple of 4. -/
def padEq (s : List Nat) : List Nat :=
  s ++ List.replicate ((4 - s.length % 4) % 4) 61

/-- `fromUint8Array` (fallback branch, `src/encode.ts`): encode the byte
groups, then apply the URL-safe substitutions, then `replace(/=/g, '')`
when padding is omitted. -/
def fromUint8Array (value : List Nat) (options : Base64EncodeOptions) : List Nat :=
  let result := encodeGroups value
  let result :=
    if options.urlSafe then (result.map subPlusDash).map subSlashUnder else result
  if options.omitPadding then result.filter (fun c => !(c == 61)) else result

/-- `toUint8Array` (fallback branch, `src/decode.ts`): URL-safe
substitutions, re-pad to a multiple of 4, sanitize, then run the decoding
loop. The preallocated `Uint8Array` is modelled by the emitted byte list:
for the (padded) input the write index never exceeds the allocated
`(length * 3 / 4) | 0`, and the final `slice(0, j)` keeps exactly the
emitted bytes. -/
def toUint8Array (value : List Nat) (options : Base64DecodeOptions) : List Nat :=
  let base64 :=
    if options.urlSafe then (value.map subDashPlus).map subUnderSlash else value
  let base64 := padEq base64
  decodeGroups (sanitize base64)

/-- Modelled from the spec: the external `utf8_encode` collaborator
(`TextEncoder` / `Buffer.from(value, 'utf-8')`), missing from `src/` —
the standard UTF-8 byte sequence of one code point. -/
def utf8EncodeCp (v : Nat) : List Nat :=
  if v < 128 then [v]
  else if v < 2048 then [192 + v / 64, 128 + v % 64]
  else if v < 65536 then [224 + v / 4096, 128 + (v / 64) % 64, 128 + v % 64]
  else [240 + v / 262144, 128 + (v / 4096) % 64, 128 + (v / 64) % 64, 128 + v % 64]

/-- Modelled from the spec: `utf8_encode` on a whole string. -/
def utf8Encode : List Nat → List Nat
  | [] => []
  | v :: rest => utf8EncodeCp v ++ utf8Encode rest

/-- A UTF-8 continuation byte. -/
def contByte (b : Nat) : Bool := 128 ≤ b && b < 192

/-- Modelled from the spec: the byte-at-a-time loop of the external
`utf8_decode` collaborator (`TextDecoder` /
`Buffer.prototype.toString('utf-8')`), missing from `src/`. The state is
the pending partial code point: its accumulated value and the count of
continuation bytes still expected. Malformed input yields the replacement
character U+FFFD (the external decoder's exact resynchronization on
malformed input is an accepted external risk and is not relied upon). -/
def utf8DecodeGo (pending : Option (Nat × Nat)) : List Nat → List Nat
  | [] =>
    match pending with
    | none => []
    | some _ => [65533]
  | b :: rest =>
    match pending with
    | none =>
      if b < 128 then b :: utf8DecodeGo none rest
      else if 192 ≤ b ∧ b < 224 then utf8DecodeGo (some (b - 192, 1)) rest
      else if 224 ≤ b ∧ b < 240 then utf8DecodeGo (some (b - 224, 2)) rest
      else if 240 ≤ b ∧ b < 248 then utf8DecodeGo (some (b - 240, 3)) rest
      else 65533 :: utf8DecodeGo none rest
    | some (acc, need) =>
      if contByte b then
        (if need ≤ 1 then (acc * 64 + (b - 128)) :: utf8DecodeGo none rest
         else utf8DecodeGo (some (acc * 64 + (b - 128), need - 1)) rest)
      else 65533 :: utf8DecodeGo none rest

/-- Modelled from the spec: `utf8_decode`, total and lossless on
well-formed UTF-8. -/
def utf8Decode (bytes : List Nat) : List Nat := utf8DecodeGo none bytes

/-- A well-formed JS string: every element is a Unicode scalar value
(below 0x110000 and not a surrogate). -/
def WellFormed (s : List Nat) : Prop :=
  ∀ v ∈ s, v < 1114112 ∧ ¬(55296 ≤ v ∧ v ≤ 57343)

/-- The strip of the trailing run of `=` performed by `encode` when
`omitPadding` is set (the regex anchors one-or-more `=` at the end). -/
def dropTrailingEq (s : List Nat) : List Nat :=
  (s.reverse.dropWhile fun c => c == 61).reverse

/-- `encode` (`src/encode.ts`): the primary Node/browser branches convert
the string to its UTF-8 bytes (external collaborator) and base64-encode
them — the byte encoding itself follows the repository's core engine —
then the URL-safe substitutions and the trailing-padding strip are applied
to the result. -/
def encode (value : List Nat) (options : Base64EncodeOptions) : List Nat :=
  let result := encodeGroups (utf8Encode value)
  let result :=
    if options.urlSafe then (result.map subPlusDash).map subSlashUnder else result
  if options.omitPadding then dropTrailingEq result else result

/-- `decode` (`src/decode.ts`): URL-safe substitutions and re-padding,
base64-decode to bytes by the core engine, then the UTF-8 text conversion
of the primary Node/browser branches (external collaborator). -/
def decode (value : List Nat) (options : Base64DecodeOptions) : List Nat :=
  utf8Decode (toUint8Array value options)

/-- The character class `[A-Za-z0-9+/]` of `B64_REGEX`. -/
def stdAlpha (c : Nat) : Bool :=
  (65 ≤ c && c ≤ 90) || (97 ≤ c && c ≤ 122) || (48 ≤ c && c ≤ 57) ||
    c == 43 || c == 47

/-- The character class `[A-Za-z0-9-_]` of `B64_URL_REGEX`. -/
def urlAlpha (c : Nat) : Bool :=
  (65 ≤ c && c ≤ 90) || (97 ≤ c && c ≤ 122) || (48 ≤ c && c ≤ 57) ||
    c == 45 || c == 95

/-- The grammar of `B64_REGEX` (`src/constants.ts`): groups of four
alphabet symbols, the last group optionally of the form `xx==` or `xxx=`. -/
def b64Chk : List Nat → Bool
  | [] => true
  | c1 :: c2 :: c3 :: c4 :: rest =>
    if rest.isEmpty then
      (stdAlpha c1 && stdAlpha c2) &&
        ((stdAlpha c3 && (stdAlpha c4 || c4 == 61)) || (c3 == 61 && c4 == 61))
    else (stdAlpha c1 && stdAlpha c2 && stdAlpha c3 && stdAlpha c4) && b64Chk rest
  | _ => false

/-- The grammar of `B64_URL_REGEX` (`src/constants.ts`): groups of four
URL-alphabet symbols with an optional trailing group of two or three
(padding never allowed). -/
def b64UrlChk : List Nat → Bool
  | [] => true
  | [c1, c2] => urlAlpha c1 && urlAlpha c2
  | [c1, c2, c3] => urlAlpha c1 && urlAlpha c2 && urlAlpha c3
  | c1 :: c2 :: c3 :: c4 :: rest =>
    (urlAlpha c1 && urlAlpha c2 && urlAlpha c3 && urlAlpha c4) && b64UrlChk rest
  | _ => false

/-- `isValid` on string input (`src/decode.ts`): test against
`B64_URL_REGEX` when `urlSafe`, else against `B64_REGEX`. -/
def isValid (value : List Nat) (options : Base64DecodeOptions) : Bool :=
  if options.urlSafe then b64UrlChk value else b64Chk value

/-- `toDataURL` (`src/encode.ts`). -/
def toDataURL (value : List Nat) (mimeType : List Nat)
    (options : Base64EncodeOptions) : List Nat :=
  strOf "data:" ++ mimeType ++ strOf ";base64," ++ encode value options

/-- The MIME character class of the `fromDataURL` regex: word characters
together with slash, dash, plus and dot. -/
def isMimeChar (c : Nat) : Bool :=
  (65 ≤ c && c ≤ 90) || (97 ≤ c && c ≤ 122) || (48 ≤ c && c ≤ 57) ||
    c == 95 || c == 47 || c == 45 || c == 43 || c == 46

/-- A JS line terminator, which the dot of the `fromDataURL` regex does
not match. -/
def isLineTerm (c : Nat) : Bool := c == 10 || c == 13 || c == 8232 || c == 8233

/-- `fromDataURL` (`src/decode.ts`): match the anchored regex — the literal
`data:`, a greedy run of 1 to 100 MIME characters (forced maximal, since
`;` is outside the class), the literal `;base64,`, and a dot-star payload
(hence no line terminators) — and decode the payload with default
options; `none` models the `InvalidDataURLError` throw. -/
def fromDataURL (dataURL : List Nat) : Option (List Nat × List Nat) :=
  if dataURL.take 5 = strOf "data:" then
    let rest := dataURL.drop 5
    let mime := rest.takeWhile isMimeChar
    let after := rest.drop mime.length
    if 1 ≤ mime.length ∧ mime.length ≤ 100 ∧ after.take 8 = strOf ";base64," ∧
        (after.drop 8).all fun c => !isLineTerm c then
      some (decode (after.drop 8) {}, mime)
    else none
  else none

/-- The claim's MIME-type constraint: 1 to 100 characters drawn from word
characters, slash, dash, plus and dot. -/
def MimeOK (mime : List Nat) : Prop :=
  1 ≤ mime.length ∧ mime.length ≤ 100 ∧ ∀ c ∈ mime, isMimeChar c = true

/-- The structure described by the claim: the literal `data:`, a MIME
type, the literal `;base64,`, and an arbitrary payload. -/
def DataURLShape (u : List Nat) : Prop :=
  ∃ mime payload, MimeOK mime ∧
    u = strOf "data:" ++ mime ++ strOf ";base64," ++ payload

/-- The amended structure: as `DataURLShape`, but the payload additionally
contains no line terminator (which the regex dot cannot match). -/
def DataURLShapeNoNL (u : List Nat) : Prop :=
  ∃ mime payload, MimeOK mime ∧ (∀ c ∈ payload, isLineTerm c = false) ∧
    u = strOf "data:" ++ mime ++ strOf ";base64," ++ payload

/-- A chunk accepted by `Base64EncodeStream`: a string or a `Uint8Array`. -/
inductive StreamChunk where
  | str (s : List Nat)
  | bytes (b : List Nat)

/-- The chunk-to-bytes conversion at the top of the encode transform:
string chunks go through `TextEncoder`, byte chunks are used as-is. -/
def chunkToBytes : StreamChunk → List Nat
  | .str s => utf8Encode s
  | .bytes b => b

/-- The `transform` callback of `Base64EncodeStream` (`src/stream.ts`):
append the chunk's bytes to the buffer, split off the largest prefix of
length a multiple of 3, emit its encoding (when nonempty) and retain the
remainder. Returns the emitted output and the new buffer. -/
def encTransform (buffer : List Nat) (chunk : StreamChunk) : List Nat × List Nat :=
  let combined := buffer ++ chunkToBytes chunk
  let remaining := combined.length % 3
  let toProcess := combined.take (combined.length - remaining)
  let newBuffer := combined.drop (combined.length - remaining)
  (if toProcess.length > 0 then fromUint8Array toProcess {} else [], newBuffer)

/-- The `flush` callback of `Base64EncodeStream`: encode and emit the
leftover bytes, if any. -/
def encFlush (buffer : List Nat) : List Nat :=
  if buffer.length > 0 then fromUint8Array buffer {} else []

/-- Run `Base64EncodeStream` from a buffer state over a list of chunks,
flushing once at the end; the result is the concatenation of every
emitted output chunk. -/
def runEncodeStreamFrom (buffer : List Nat) : List StreamChunk → List Nat
  | [] => encFlush buffer
  | c :: cs =>
    (encTransform buffer c).1 ++ runEncodeStreamFrom (encTransform buffer c).2 cs

/-- Run a freshly constructed `Base64EncodeStream` (empty buffer). -/
def runEncodeStream (chunks : List StreamChunk) : List Nat :=
  runEncodeStreamFrom [] chunks

/-- The buffer states of `Base64EncodeStream` at every Open-state
observation point: after construction and after each processed chunk. -/
def encBuffers (buffer : List Nat) : List StreamChunk → List (List Nat)
  | [] => [buffer]
  | c :: cs => buffer :: encBuffers (encTransform buffer c).2 cs

/-- The `transform` callback of `Base64DecodeStream` (`src/stream.ts`):
append the chunk to the text buffer, split off the largest prefix of
length a multiple of 4, emit its decoding (when nonempty) and retain the
remainder. -/
def decTransform (buffer : List Nat) (chunk : List Nat) : List Nat × List Nat :=
  let combined := buffer ++ chunk
  let remaining := combined.length % 4
  let toProcess := combined.take (combined.length - remaining)
  let newBuffer := combined.drop (combined.length - remaining)
  (if toProcess.length > 0 then decode toProcess {} else [], newBuffer)

/-- The `flush` callback of `Base64DecodeStream`: decode and emit the
leftover characters, if any. -/
def decFlush (buffer : List Nat) : List Nat :=
  if buffer.length > 0 then decode buffer {} else []

/-- Run `Base64DecodeStream` from a buffer state over a list of text
chunks, flushing once at the end. -/
def runDecodeStreamFrom (buffer : List Nat) : List (List Nat) → List Nat
  | [] => decFlush buffer
  | c :: cs =>
    (decTransform buffer c).1 ++ runDecodeStreamFrom (decTransform buffer c).2 cs

/-- Run a freshly constructed `Base64DecodeStream` (empty buffer). -/
def runDecodeStream (chunks : List (List Nat)) : List Nat :=
  runDecodeStreamFrom [] chunks

/-- The buffer states of `Base64DecodeStream` at every Open-state
observation point. -/
def decBuffers (buffer : List Nat) : List (List Nat) → List (List Nat)
  | [] => [buffer]
  | c :: cs => buffer :: decBuffers (decTransform buffer c).2 cs

/-- The typed errors of the library (`src/errors.ts`, plus the built-in
`TypeError`). -/
inductive ErrorKind where
  | typeError
  | invalidBase64Error
  | invalidDataURLError
deriving DecidableEq

/-- A JS runtime value, as far as the library's `typeof` dispatch
observes it. -/
inductive JSValue where
  | str (s : List Nat)
  | num (n : Int)
  | boolean (b : Bool)
  | nullV
  | undef
  | obj

/-- The guard `typeof value === 'string'`. -/
def typeofIsString : JSValue → Bool
  | .str _ => true
  | _ => false

/-- `encode` on an arbitrary JS value: a non-string throws `TypeError`
before any processing. -/
def encodeJS (value : JSValue) (options : Base64EncodeOptions) :
    Except ErrorKind (List Nat) :=
  match value with
  | .str s => .ok (encode s options)
  | _ => .error .typeError

/-- `decode` on an arbitrary JS value: a non-string throws
`InvalidBase64Error` before any processing. -/
def decodeJS (value : JSValue) (options : Base64DecodeOptions) :
    Except ErrorKind (List Nat) :=
  match value with
  | .str s => .ok (decode s options)
  | _ => .error .invalidBase64Error

/-- `toUint8Array` on an arbitrary JS value: a non-string throws
`InvalidBase64Error` before any processing. -/
def toUint8ArrayJS (value : JSValue) (options : Base64DecodeOptions) :
    Except ErrorKind (List Nat) :=
  match value with
  | .str s => .ok (toUint8Array s options)
  | _ => .error .invalidBase64Error

/-- `isValid` on an arbitrary JS value: false (without throwing) on a
non-string. -/
def isValidJS (value : JSValue) (options : Base64DecodeOptions) : Bool :=
  match value with
  | .str s => isValid s options
  | _ => false

/-- A candidate argument of `fromUint8Array`, as far as its guard
`typeof value` / `value.constructor.name` observes it. -/
inductive U8Candidate where
  | uint8Array (bytes : List Nat)
  | nodeBuffer (bytes : List Nat)
  | plainObject
  | nonObject (v : JSValue)

/-- The guard `typeof value === 'object'` for a candidate. -/
def candTypeofIsObject : U8Candidate → Bool
  | .uint8Array _ => true
  | .nodeBuffer _ => true
  | .plainObject => true
  | .nonObject _ => false

/-- The observed `value.constructor.name`; Node's `Buffer` is a subclass
of `Uint8Array`, so its constructor name is `Buffer`. -/
def candCtorName : U8Candidate → String
  | .uint8Array _ => "Uint8Array"
  | .nodeBuffer _ => "Buffer"
  | .plainObject => "Object"
  | .nonObject _ => ""

/-- `fromUint8Array` on an arbitrary value: the guard throws `TypeError`
unless the value is an object whose constructor name is exactly
`Uint8Array`. -/
def fromUint8ArrayJS (value : U8Candidate) (options : Base64EncodeOptions) :
    Except ErrorKind (List Nat) :=
  if candTypeofIsObject value = false ∨ candCtorName value ≠ "Uint8Array" then
    .error .typeError
  else
    match value with
    | .uint8Array b => .ok (fromUint8Array b options)
    | _ => .error .typeError

/-- Concatenation of a list of chunks. -/
def flattenL : List (List Nat) → List Nat
  | [] => []
  | x :: xs => x ++ flattenL xs

/-- The number of trailing padding symbols of an encoded string. -/
def trailingPadCount (s : List Nat) : Nat :=
  (s.reverse.takeWhile fun c => c == 61).length

/-- The symbol at a given index of the character set (as a code point). -/
def csym (e : Nat) : Nat := B64_CHAR_SET.getD e 0

/-! ### Bit-level facts about the 3-byte/4-symbol packing, all bounded
and settled by evaluation. -/

theorem shiftr2_lt : ∀ c < 256, c >>> 2 < 64 := by decide

theorem shiftr4_lt : ∀ c < 256, c >>> 4 < 16 := by decide

theorem shiftr6_lt : ∀ c < 256, c >>> 6 < 4 := by decide

theorem and3_lt : ∀ c < 256, c &&& 3 < 4 := by decide

theorem and15_lt : ∀ c < 256, c &&& 15 < 16 := by decide

theorem and63_lt : ∀ c < 256, c &&& 63 < 64 := by decide

theorem enc2_lt : ∀ a < 4, ∀ h < 16, ((a <<< 4) ||| h) < 64 := by decide

theorem enc3_lt : ∀ b < 16, ∀ g < 4, ((b <<< 2) ||| g) < 64 := by decide

theorem recomb1 : ∀ c < 256, ∀ h < 16,
    (((c >>> 2) <<< 2) ||| ((((c &&& 3) <<< 4) ||| h) >>> 4)) % 256 = c := by decide

theorem recomb2 : ∀ a < 4, ∀ c < 256, ∀ g < 4,
    (((((a <<< 4) ||| (c >>> 4)) &&& 15) <<< 4) ||| ((((c &&& 15) <<< 2) ||| g) >>> 2))
      % 256 = c := by decide

theorem recomb3 : ∀ b < 16, ∀ c < 256,
    (((((b <<< 2) ||| (c >>> 6)) &&& 3) <<< 6) ||| (c &&& 63)) % 256 = c := by decide

/-! ### Facts about the character set, settled by evaluation. -/

theorem b64CharAt_eq : ∀ e < 65, b64CharAt e = [csym e] := by decide

theorem b64Lookup_csym : ∀ e < 65, b64Lookup [csym e] = some e := by decide

theorem csym_sym_or_pad : ∀ e < 65, isB64SymbolOrPad (csym e) = true := by decide

theorem csym_ne_pad : ∀ e < 64, (csym e == 61) = false := by decide

theorem csym_pad : csym 64 = 61 := by decide

theorem csym_lt : ∀ e < 65, csym e < 256 := by decide

theorem stdAlpha_csym : ∀ e < 64, stdAlpha (csym e) = true := by decide

theorem urlAlpha_subst_csym : ∀ e < 64,
    urlAlpha (subSlashUnder (subPlusDash (csym e))) = true := by decide

theorem subst_roundtrip_csym : ∀ e < 65,
    subUnderSlash (subDashPlus (subSlashUnder (subPlusDash (csym e)))) = csym e := by
  decide

theorem subst_ne_pad_csym : ∀ e < 64,
    (subSlashUnder (subPlusDash (csym e)) == 61) = false := by decide

theorem subst_pad : subSlashUnder (subPlusDash 61) = 61 := by decide

/-! ### The core engine round-trip -/

theorem decGroup_enc3 (c1 c2 c3 : Nat) (h1 : c1 < 256) (h2 : c2 < 256) (h3 : c3 < 256) :
    decGroup [csym (c1 >>> 2)] [csym (((c1 &&& 3) <<< 4) ||| (c2 >>> 4))]
      [csym (((c2 &&& 15) <<< 2) ||| (c3 >>> 6))] [csym (c3 &&& 63)] = [c1, c2, c3] := by
  have a3 := and3_lt c1 h1
  have a15 := and15_lt c2 h2
  have s4 := shiftr4_lt c2 h2
  have s6 := shiftr6_lt c3 h3
  have b1 := shiftr2_lt c1 h1
  have b2 := enc2_lt _ a3 _ s4
  have b3 := enc3_lt _ a15 _ s6
  have b4 := and63_lt c3 h3
  simp only [decGroup, b64Lookup_csym _ (Nat.lt_succ_of_lt b1),
    b64Lookup_csym _ (Nat.lt_succ_of_lt b2), b64Lookup_csym _ (Nat.lt_succ_of_lt b3),
    b64Lookup_csym _ (Nat.lt_succ_of_lt b4), undefOr0]
  rw [if_pos (by simp only [ne_eq, Option.some.injEq]; omega),
    if_pos (by simp only [ne_eq, Option.some.injEq]; omega)]
  simp only [recomb1 c1 h1 _ s4, recomb2 _ a3 c2 h2 _ s6, recomb3 _ a15 c3 h3,
    List.append_nil, List.singleton_append, List.cons_append, List.nil_append]

theorem decGroup_enc1 (c1 : Nat) (h1 : c1 < 256) :
    decGroup [csym (c1 >>> 2)] [csym (((c1 &&& 3) <<< 4) ||| (0 >>> 4))]
      [csym 64] [csym 64] = [c1] := by
  have a3 := and3_lt c1 h1
  have b1 := shiftr2_lt c1 h1
  have b2 := enc2_lt _ a3 0 (by omega)
  rw [Nat.zero_shiftRight]
  simp only [decGroup, b64Lookup_csym _ (Nat.lt_succ_of_lt b1),
    b64Lookup_csym _ (Nat.lt_succ_of_lt b2), b64Lookup_csym 64 (by omega), undefOr0]
  rw [if_neg (by simp), if_neg (by simp)]
  simp only [recomb1 c1 h1 0 (by omega), List.append_nil, List.singleton_append]

theorem decGroup_enc2 (c1 c2 : Nat) (h1 : c1 < 256) (h2 : c2 < 256) :
    decGroup [csym (c1 >>> 2)] [csym (((c1 &&& 3) <<< 4) ||| (c2 >>> 4))]
      [csym (((c2 &&& 15) <<< 2) ||| (0 >>> 6))] [csym 64] = [c1, c2] := by
  have a3 := and3_lt c1 h1
  have a15 := and15_lt c2 h2
  have s4 := shiftr4_lt c2 h2
  have b1 := shiftr2_lt c1 h1
  have b2 := enc2_lt _ a3 _ s4
  have b3 := enc3_lt _ a15 0 (by omega)
  rw [Nat.zero_shiftRight]
  simp only [decGroup, b64Lookup_csym _ (Nat.lt_succ_of_lt b1),
    b64Lookup_csym _ (Nat.lt_succ_of_lt b2), b64Lookup_csym _ (Nat.lt_succ_of_lt b3),
    b64Lookup_csym 64 (by omega), undefOr0]
  rw [if_pos (by simp only [ne_eq, Option.some.injEq]; omega), if_neg (by simp)]
  simp only [recomb1 c1 h1 _ s4, recomb2 _ a3 c2 h2 0 (by omega), List.append_nil,
    List.singleton_append, List.cons_append, List.nil_append]

theorem encodeGroups_cons3 (c1 c2 c3 : Nat) (rest : List Nat)
    (h1 : c1 < 256) (h2 : c2 < 256) (h3 : c3 < 256) :
    encodeGroups (c1 :: c2 :: c3 :: rest) =
      csym (c1 >>> 2) :: csym (((c1 &&& 3) <<< 4) ||| (c2 >>> 4)) ::
        csym (((c2 &&& 15) <<< 2) ||| (c3 >>> 6)) :: csym (c3 &&& 63) ::
        encodeGroups rest := by
  have b1 := shiftr2_lt c1 h1
  have b2 := enc2_lt _ (and3_lt c1 h1) _ (shiftr4_lt c2 h2)
  have b3 := enc3_lt _ (and15_lt c2 h2) _ (shiftr6_lt c3 h3)
  have b4 := and63_lt c3 h3
  cases rest with
  | nil =>
    simp only [encodeGroups, b64CharAt_eq _ (Nat.lt_succ_of_lt b1),
      b64CharAt_eq _ (Nat.lt_succ_of_lt b2), b64CharAt_eq _ (Nat.lt_succ_of_lt b3),
      b64CharAt_eq _ (Nat.lt_succ_of_lt b4), List.cons_append, List.nil_append,
      List.singleton_append]
  | cons d rest =>
    simp only [encodeGroups, b64CharAt_eq _ (Nat.lt_succ_of_lt b1),
      b64CharAt_eq _ (Nat.lt_succ_of_lt b2), b64CharAt_eq _ (Nat.lt_succ_of_lt b3),
      b64CharAt_eq _ (Nat.lt_succ_of_lt b4), List.cons_append, List.nil_append,
      List.singleton_append]

theorem encodeGroups_one (c1 : Nat) (h1 : c1 < 256) :
    encodeGroups [c1] =
      [csym (c1 >>> 2), csym (((c1 &&& 3) <<< 4) ||| (0 >>> 4)), csym 64, csym 64] := by
  have b1 := shiftr2_lt c1 h1
  have b2 := enc2_lt _ (and3_lt c1 h1) (0 >>> 4) (by decide)
  simp only [encodeGroups, b64CharAt_eq _ (Nat.lt_succ_of_lt b1),
    b64CharAt_eq _ (Nat.lt_succ_of_lt b2), b64CharAt_eq 64 (by omega),
    List.cons_append, List.nil_append, List.singleton_append]

theorem encodeGroups_two (c1 c2 : Nat) (h1 : c1 < 256) (h2 : c2 < 256) :
    encodeGroups [c1, c2] =
      [csym (c1 >>> 2), csym (((c1 &&& 3) <<< 4) ||| (c2 >>> 4)),
        csym (((c2 &&& 15) <<< 2) ||| (0 >>> 6)), csym 64] := by
  have b1 := shiftr2_lt c1 h1
  have b2 := enc2_lt _ (and3_lt c1 h1) _ (shiftr4_lt c2 h2)
  have b3 := enc3_lt _ (and15_lt c2 h2) (0 >>> 6) (by decide)
  simp only [encodeGroups, b64CharAt_eq _ (Nat.lt_succ_of_lt b1),
    b64CharAt_eq _ (Nat.lt_succ_of_lt b2), b64CharAt_eq _ (Nat.lt_succ_of_lt b3),
    b64CharAt_eq 64 (by omega), List.cons_append, List.nil_append,
    List.singleton_append]

theorem decodeGroups_encodeGroups (b : List Nat) (h : ∀ x ∈ b, x < 256) :
    decodeGroups (encodeGroups b) = b := by
  induction b using encodeGroups.induct with
  | case1 => rfl
  | case2 c1 =>
    have h1 := h c1 (by simp)
    rw [encodeGroups_one c1 h1]
    show decGroup [csym (c1 >>> 2)] [csym (((c1 &&& 3) <<< 4) ||| (0 >>> 4))]
      [csym 64] [csym 64] ++ decodeGroups [] = [c1]
    rw [decGroup_enc1 c1 h1]
    rfl
  | case3 c1 c2 =>
    have h1 := h c1 (by simp)
    have h2 := h c2 (by simp)
    rw [encodeGroups_two c1 c2 h1 h2]
    show decGroup [csym (c1 >>> 2)] [csym (((c1 &&& 3) <<< 4) ||| (c2 >>> 4))]
      [csym (((c2 &&& 15) <<< 2) ||| (0 >>> 6))] [csym 64] ++ decodeGroups [] = [c1, c2]
    rw [decGroup_enc2 c1 c2 h1 h2]
    rfl
  | case4 c1 c2 c3 rest ih =>
    have h1 := h c1 (by simp)
    have h2 := h c2 (by simp)
    have h3 := h c3 (by simp)
    rw [encodeGroups_cons3 c1 c2 c3 rest h1 h2 h3]
    show decGroup [csym (c1 >>> 2)] [csym (((c1 &&& 3) <<< 4) ||| (c2 >>> 4))]
      [csym (((c2 &&& 15) <<< 2) ||| (c3 >>> 6))] [csym (c3 &&& 63)] ++
        decodeGroups (encodeGroups rest) = c1 :: c2 :: c3 :: rest
    rw [decGroup_enc3 c1 c2 c3 h1 h2 h3, ih fun x hx => h x (by simp [hx])]
    rfl

/-- Structure of an encoded byte list: a pad-free body of alphabet symbols
followed by exactly `(3 - n mod 3) mod 3` padding symbols, with total
length `4 * ceil(n / 3)`. -/
theorem encodeGroups_split (b : List Nat) (h : ∀ x ∈ b, x < 256) :
    ∃ B, encodeGroups b = B ++ List.replicate ((3 - b.length % 3) % 3) 61 ∧
      (∀ c ∈ B, ∃ e, e < 64 ∧ c = csym e) ∧
      (encodeGroups b).length = 4 * ((b.length + 2) / 3) := by
  induction b using encodeGroups.induct with
  | case1 => exact ⟨[], by simp [encodeGroups], by simp, by simp [encodeGroups]⟩
  | case2 c1 =>
    have h1 := h c1 (by simp)
    have b1 := shiftr2_lt c1 h1
    have b2 := enc2_lt _ (and3_lt c1 h1) (0 >>> 4) (by decide)
    refine ⟨[csym (c1 >>> 2), csym (((c1 &&& 3) <<< 4) ||| (0 >>> 4))], ?_, ?_, ?_⟩
    · rw [encodeGroups_one c1 h1, csym_pad]
      rfl
    · intro c hc
      simp only [List.mem_cons, List.not_mem_nil, or_false] at hc
      rcases hc with hc | hc
      · exact ⟨_, b1, hc⟩
      · exact ⟨_, b2, hc⟩
    · rw [encodeGroups_one c1 h1]
      simp
  | case3 c1 c2 =>
    have h1 := h c1 (by simp)
    have h2 := h c2 (by simp)
    have b1 := shiftr2_lt c1 h1
    have b2 := enc2_lt _ (and3_lt c1 h1) _ (shiftr4_lt c2 h2)
    have b3 := enc3_lt _ (and15_lt c2 h2) (0 >>> 6) (by decide)
    refine ⟨[csym (c1 >>> 2), csym (((c1 &&& 3) <<< 4) ||| (c2 >>> 4)),
      csym (((c2 &&& 15) <<< 2) ||| (0 >>> 6))], ?_, ?_, ?_⟩
    · rw [encodeGroups_two c1 c2 h1 h2, csym_pad]
      rfl
    · intro c hc
      simp only [List.mem_cons, List.not_mem_nil, or_false] at hc
      rcases hc with hc | hc | hc
      · exact ⟨_, b1, hc⟩
      · exact ⟨_, b2, hc⟩
      · exact ⟨_, b3, hc⟩
    · rw [encodeGroups_two c1 c2 h1 h2]
      simp
  | case4 c1 c2 c3 rest ih =>
    have h1 := h c1 (by simp)
    have h2 := h c2 (by simp)
    have h3 := h c3 (by simp)
    have hrest : ∀ x ∈ rest, x < 256 := fun x hx => h x (by simp [hx])
    obtain ⟨B, ihsplit, ihmem, ihlen⟩ := ih hrest
    have b1 := shiftr2_lt c1 h1
    have b2 := enc2_lt _ (and3_lt c1 h1) _ (shiftr4_lt c2 h2)
    have b3 := enc3_lt _ (and15_lt c2 h2) _ (shiftr6_lt c3 h3)
    have b4 := and63_lt c3 h3
    have hmod : (3 - (c1 :: c2 :: c3 :: rest).length % 3) % 3 =
        (3 - rest.length % 3) % 3 := by
      simp only [List.length_cons]
      omega
    refine ⟨csym (c1 >>> 2) :: csym (((c1 &&& 3) <<< 4) ||| (c2 >>> 4)) ::
      csym (((c2 &&& 15) <<< 2) ||| (c3 >>> 6)) :: csym (c3 &&& 63) :: B, ?_, ?_, ?_⟩
    · rw [encodeGroups_cons3 c1 c2 c3 rest h1 h2 h3, hmod, ihsplit]
      simp [List.cons_append]
    · intro c hc
      simp only [List.mem_cons] at hc
      rcases hc with hc | hc | hc | hc | hc
      · exact ⟨_, b1, hc⟩
      · exact ⟨_, b2, hc⟩
      · exact ⟨_, b3, hc⟩
      · exact ⟨_, b4, hc⟩
      · exact ihmem c hc
    · rw [encodeGroups_cons3 c1 c2 c3 rest h1 h2 h3]
      simp only [List.length_cons, ihlen]
      omega

theorem encodeGroups_length (b : List Nat) (h : ∀ x ∈ b, x < 256) :
    (encodeGroups b).length = 4 * ((b.length + 2) / 3) :=
  (encodeGroups_split b h).choose_spec.2.2

theorem mem_encodeGroups_symbol (b : List Nat) (h : ∀ x ∈ b, x < 256) :
    ∀ c ∈ encodeGroups b, ∃ e, e < 65 ∧ c = csym e := by
  obtain ⟨B, hsplit, hmem, -⟩ := encodeGroups_split b h
  intro c hc
  rw [hsplit] at hc
  rcases List.mem_append.mp hc with hc | hc
  · obtain ⟨e, he, rfl⟩ := hmem c hc
    exact ⟨e, by omega, rfl⟩
  · rw [List.eq_of_mem_replicate hc, ← csym_pad]
    exact ⟨64, by omega, rfl⟩

theorem sanitize_eq_self (l : List Nat) (h : ∀ c ∈ l, isB64SymbolOrPad c = true) :
    sanitize l = l :=
  List.filter_eq_self.mpr h

theorem padEq_eq_self (s : List Nat) (h : s.length % 4 = 0) : padEq s = s := by
  simp [padEq, h]

theorem sanitize_of_symbols (l : List Nat) (h : ∀ c ∈ l, ∃ e, e < 65 ∧ c = csym e) :
    sanitize l = l := by
  refine sanitize_eq_self l fun c hc => ?_
  obtain ⟨e, he, rfl⟩ := h c hc
  exact csym_sym_or_pad e he

theorem filter_pad_split (B : List Nat) (k : Nat)
    (hB : ∀ c ∈ B, (c == 61) = false) :
    (B ++ List.replicate k 61).filter (fun c => !(c == 61)) = B := by
  rw [List.filter_append]
  have h1 : B.filter (fun c => !(c == 61)) = B :=
    List.filter_eq_self.mpr fun c hc => by simp [hB c hc]
  have h2 : (List.replicate k 61).filter (fun c => !(c == 61)) = ([] : List Nat) := by
    induction k with
    | zero => rfl
    | succ n ihn => simp [List.replicate_succ, ihn]
  rw [h1, h2, List.append_nil]

theorem takeWhile_append_all {p : Nat → Bool} (l1 l2 : List Nat)
    (h : ∀ x ∈ l1, p x = true) :
    (l1 ++ l2).takeWhile p = l1 ++ l2.takeWhile p := by
  induction l1 with
  | nil => rfl
  | cons a t ih =>
    simp [List.cons_append, List.takeWhile_cons, h a (by simp),
      ih fun x hx => h x (by simp [hx])]

theorem takeWhile_none {p : Nat → Bool} (l : List Nat)
    (h : ∀ x ∈ l, p x = false) : l.takeWhile p = [] := by
  cases l with
  | nil => rfl
  | cons a t => simp [List.takeWhile_cons, h a (by simp)]

theorem dropWhile_append_all {p : Nat → Bool} (l1 l2 : List Nat)
    (h : ∀ x ∈ l1, p x = true) :
    (l1 ++ l2).dropWhile p = l2.dropWhile p := by
  induction l1 with
  | nil => rfl
  | cons a t ih =>
    simp only [List.cons_append, List.dropWhile_cons, h a (by simp), if_true,
      ih fun x hx => h x (by simp [hx])]

theorem dropWhile_none {p : Nat → Bool} (l : List Nat)
    (h : ∀ x ∈ l, p x = false) : l.dropWhile p = l := by
  cases l with
  | nil => rfl
  | cons a t => simp [List.dropWhile_cons, h a (by simp)]

theorem trailingPadCount_split (B : List Nat) (k : Nat)
    (hB : ∀ c ∈ B, (c == 61) = false) :
    trailingPadCount (B ++ List.replicate k 61) = k := by
  unfold trailingPadCount
  rw [List.reverse_append, List.reverse_replicate,
    takeWhile_append_all _ _ (fun x hx => by rw [List.eq_of_mem_replicate hx]; rfl),
    takeWhile_none _ (fun x hx => hB x (List.mem_reverse.mp hx))]
  simp

theorem dropTrailingEq_split (B : List Nat) (k : Nat)
    (hB : ∀ c ∈ B, (c == 61) = false) :
    dropTrailingEq (B ++ List.replicate k 61) = B := by
  unfold dropTrailingEq
  rw [List.reverse_append, List.reverse_replicate,
    dropWhile_append_all _ _ (fun x hx => by rw [List.eq_of_mem_replicate hx]; rfl),
    dropWhile_none _ (fun x hx => hB x (List.mem_reverse.mp hx)), List.reverse_reverse]

theorem map_subst_roundtrip (l : List Nat)
    (h : ∀ c ∈ l, ∃ e, e < 65 ∧ c = csym e) :
    (((l.map subPlusDash).map subSlashUnder).map subDashPlus).map subUnderSlash
      = l := by
  induction l with
  | nil => rfl
  | cons a t ih =>
    obtain ⟨e, he, rfl⟩ := h a (by simp)
    simp only [List.map_cons]
    rw [subst_roundtrip_csym e he, ih fun c hc => h c (by simp [hc])]

theorem map_subst_split (B : List Nat) (k : Nat) :
    ((B ++ List.replicate k 61).map subPlusDash).map subSlashUnder =
      ((B.map subPlusDash).map subSlashUnder) ++ List.replicate k 61 := by
  simp only [List.map_append, List.map_replicate]
  rw [show subSlashUnder (subPlusDash 61) = 61 from subst_pad]

theorem map_subst_members (B : List Nat)
    (hB : ∀ c ∈ B, ∃ e, e < 64 ∧ c = csym e) :
    ∀ c ∈ (B.map subPlusDash).map subSlashUnder, (c == 61) = false := by
  intro c hc
  rw [List.map_map] at hc
  obtain ⟨a, ha, rfl⟩ := List.mem_map.mp hc
  obtain ⟨e, he, rfl⟩ := hB a ha
  exact subst_ne_pad_csym e he

/-- **C1.** For every byte sequence `b` and every pair of flags `u`, `p`,
decoding the encoding round-trips exactly:
`toUint8Array(fromUint8Array(b, {urlSafe: u, omitPadding: p}), {urlSafe: u})`
equals `b`. -/
theorem base64_C1_roundtrip (b : List Nat) (u p : Bool) (h : ∀ x ∈ b, x < 256) :
    toUint8Array (fromUint8Array b { urlSafe := u, omitPadding := p })
      { urlSafe := u } = b := by
  obtain ⟨B, hsplit, hBmem, hlen⟩ := encodeGroups_split b h
  have hsym := mem_encodeGroups_symbol b h
  have hmod4 : (encodeGroups b).length % 4 = 0 := by rw [hlen]; omega
  have hcore := decodeGroups_encodeGroups b h
  have hBk : B.length + (3 - b.length % 3) % 3 = (encodeGroups b).length := by
    rw [hsplit]
    simp
  have hBne : ∀ c ∈ B, (c == 61) = false := fun c hc => by
    obtain ⟨e, he, rfl⟩ := hBmem c hc
    exact csym_ne_pad e he
  have hpadB : padEq B = B ++ List.replicate ((3 - b.length % 3) % 3) 61 := by
    unfold padEq
    congr 2
    omega
  cases u <;> cases p
  · show decodeGroups (sanitize (padEq (encodeGroups b))) = b
    rw [padEq_eq_self _ hmod4, sanitize_of_symbols _ hsym, hcore]
  · show decodeGroups (sanitize (padEq
      ((encodeGroups b).filter fun c => !(c == 61)))) = b
    rw [hsplit, filter_pad_split B _ hBne, hpadB, ← hsplit,
      sanitize_of_symbols _ hsym, hcore]
  · show decodeGroups (sanitize (padEq
      (((((encodeGroups b).map subPlusDash).map subSlashUnder).map
        subDashPlus).map subUnderSlash))) = b
    rw [map_subst_roundtrip _ hsym, padEq_eq_self _ hmod4,
      sanitize_of_symbols _ hsym, hcore]
  · show decodeGroups (sanitize (padEq
      (((((((encodeGroups b).map subPlusDash).map subSlashUnder).filter
        fun c => !(c == 61)).map subDashPlus).map subUnderSlash)))) = b
    rw [hsplit, map_subst_split B _,
      filter_pad_split _ _ (map_subst_members B hBmem),
      map_subst_roundtrip B (fun c hc => by
        obtain ⟨e, he, rfl⟩ := hBmem c hc
        exact ⟨e, by omega, rfl⟩),
      hpadB, ← hsplit, sanitize_of_symbols _ hsym, hcore]

/-- Witness for C1 at a concrete byte sequence and concrete flags. -/
theorem base64_C1_roundtrip_witness :
    toUint8Array (fromUint8Array [72, 101, 108, 108, 111]
      { urlSafe := true, omitPadding := true }) { urlSafe := true }
      = [72, 101, 108, 108, 111] :=
  base64_C1_roundtrip [72, 101, 108, 108, 111] true true (by decide)

/-- **C6.** For every byte sequence of length `n`, `fromUint8Array` with
default options returns a string of length exactly `4 * ceil(n/3)` whose
number of trailing `=` characters is `(3 - n mod 3) mod 3`. -/
theorem base64_C6_padding (b : List Nat) (h : ∀ x ∈ b, x < 256) :
    (fromUint8Array b {}).length = 4 * ((b.length + 2) / 3) ∧
      trailingPadCount (fromUint8Array b {}) = (3 - b.length % 3) % 3 := by
  obtain ⟨B, hsplit, hBmem, hlen⟩ := encodeGroups_split b h
  have hBne : ∀ c ∈ B, (c == 61) = false := fun c hc => by
    obtain ⟨e, he, rfl⟩ := hBmem c hc
    exact csym_ne_pad e he
  constructor
  · show (encodeGroups b).length = 4 * ((b.length + 2) / 3)
    exact hlen
  · show trailingPadCount (encodeGroups b) = (3 - b.length % 3) % 3
    rw [hsplit, trailingPadCount_split B _ hBne]

/-- Witness for C6 at concrete byte sequences of each residue length. -/
theorem base64_C6_padding_witness :
    ((fromUint8Array [1] {}).length = 4 ∧ trailingPadCount (fromUint8Array [1] {}) = 2) ∧
      ((fromUint8Array [1, 2] {}).length = 4 ∧
        trailingPadCount (fromUint8Array [1, 2] {}) = 1) ∧
      ((fromUint8Array [1, 2, 3] {}).length = 4 ∧
        trailingPadCount (fromUint8Array [1, 2, 3] {}) = 0) :=
  ⟨base64_C6_padding [1] (by decide), base64_C6_padding [1, 2] (by decide),
    base64_C6_padding [1, 2, 3] (by decide)⟩

/-! ### UTF-8 round-trip (external collaborator, modelled from the spec) -/

theorem utf8EncodeCp_lt (v : Nat) (hv : v < 1114112) :
    ∀ b ∈ utf8EncodeCp v, b < 256 := by
  intro b hb
  simp only [utf8EncodeCp] at hb
  split_ifs at hb <;>
    simp only [List.mem_cons, List.not_mem_nil, or_false] at hb <;> omega

theorem utf8Encode_lt (s : List Nat) (h : ∀ v ∈ s, v < 1114112) :
    ∀ b ∈ utf8Encode s, b < 256 := by
  induction s with
  | nil => simp [utf8Encode]
  | cons v t ih =>
    intro b hb
    simp only [utf8Encode, List.mem_append] at hb
    rcases hb with hb | hb
    · exact utf8EncodeCp_lt v (h v (by simp)) b hb
    · exact ih (fun w hw => h w (by simp [hw])) b hb

theorem contByte_cont (w : Nat) : contByte (128 + w % 64) = true := by
  simp only [contByte, Bool.and_eq_true, decide_eq_true_eq]
  omega

theorem utf8DecodeGo_encodeCp (v : Nat) (hv : v < 1114112) (rest : List Nat) :
    utf8DecodeGo none (utf8EncodeCp v ++ rest) = v :: utf8DecodeGo none rest := by
  by_cases c1 : v < 128
  · have henc : utf8EncodeCp v = [v] := by
      simp only [utf8EncodeCp]
      rw [if_pos c1]
    rw [henc, List.singleton_append, utf8DecodeGo.eq_3, if_pos c1]
  · by_cases c2 : v < 2048
    · have henc : utf8EncodeCp v = [192 + v / 64, 128 + v % 64] := by
        simp only [utf8EncodeCp]
        rw [if_neg c1, if_pos c2]
      rw [henc, List.cons_append, List.singleton_append, utf8DecodeGo.eq_3,
        if_neg (by omega), if_pos (by omega), utf8DecodeGo.eq_4,
        if_pos (contByte_cont v), if_pos (by omega)]
      congr 1
      omega
    · by_cases c3 : v < 65536
      · have henc : utf8EncodeCp v =
            [224 + v / 4096, 128 + (v / 64) % 64, 128 + v % 64] := by
          simp only [utf8EncodeCp]
          rw [if_neg c1, if_neg c2, if_pos c3]
        rw [henc, List.cons_append, List.cons_append, List.singleton_append,
          utf8DecodeGo.eq_3, if_neg (by omega), if_neg (by omega), if_pos (by omega),
          utf8DecodeGo.eq_4, if_pos (contByte_cont (v / 64)), if_neg (by omega),
          utf8DecodeGo.eq_4, if_pos (contByte_cont v), if_pos (by omega)]
        congr 1
        omega
      · have henc : utf8EncodeCp v = [240 + v / 262144, 128 + (v / 4096) % 64,
            128 + (v / 64) % 64, 128 + v % 64] := by
          simp only [utf8EncodeCp]
          rw [if_neg c1, if_neg c2, if_neg c3]
        rw [henc, List.cons_append, List.cons_append, List.cons_append,
          List.singleton_append, utf8DecodeGo.eq_3, if_neg (by omega),
          if_neg (by omega), if_neg (by omega), if_pos (by omega),
          utf8DecodeGo.eq_4, if_pos (contByte_cont (v / 4096)), if_neg (by omega),
          utf8DecodeGo.eq_4, if_pos (contByte_cont (v / 64)), if_neg (by omega),
          utf8DecodeGo.eq_4, if_pos (contByte_cont v), if_pos (by omega)]
        congr 1
        omega

theorem utf8_roundtrip (s : List Nat) (h : ∀ v ∈ s, v < 1114112) :
    utf8Decode (utf8Encode s) = s := by
  show utf8DecodeGo none (utf8Encode s) = s
  induction s with
  | nil => rfl
  | cons v t ih =>
    show utf8DecodeGo none (utf8EncodeCp v ++ utf8Encode t) = v :: t
    rw [utf8DecodeGo_encodeCp v (h v (by simp)),
      ih fun w hw => h w (by simp [hw])]

theorem utf8DecodeGo_ascii_append (a b : List Nat) (h : ∀ x ∈ a, x < 128) :
    utf8DecodeGo none (a ++ b) =
      utf8DecodeGo none a ++ utf8DecodeGo none b := by
  induction a with
  | nil => rfl
  | cons x t ih =>
    rw [List.cons_append, utf8DecodeGo.eq_3, if_pos (h x (by simp)),
      utf8DecodeGo.eq_3, if_pos (h x (by simp)), List.cons_append,
      ih fun y hy => h y (by simp [hy])]

/-- **C3.** For every well-formed UTF-8 string `s`, encoding converts `s`
to its UTF-8 byte sequence and encodes those bytes, so that
`decode(encode(s))` with default options returns `s` exactly. -/
theorem base64_C3_text_roundtrip (s : List Nat) (h : WellFormed s) :
    decode (encode s {}) {} = s := by
  have hb : ∀ x ∈ utf8Encode s, x < 256 :=
    utf8Encode_lt s fun v hv => (h v hv).1
  have hsym := mem_encodeGroups_symbol _ hb
  have hmod4 : (encodeGroups (utf8Encode s)).length % 4 = 0 := by
    rw [encodeGroups_length _ hb]
    omega
  show utf8Decode (decodeGroups (sanitize (padEq (encodeGroups (utf8Encode s))))) = s
  rw [padEq_eq_self _ hmod4, sanitize_of_symbols _ hsym,
    decodeGroups_encodeGroups _ hb]
  exact utf8_roundtrip s fun v hv => (h v hv).1

/-- Witness for C3 at a concrete string with multi-byte characters. -/
theorem base64_C3_text_roundtrip_witness :
    decode (encode (strOf "Héllo, wörld! €𝄞") {}) {} = strOf "Héllo, wörld! €𝄞" :=
  base64_C3_text_roundtrip (strOf "Héllo, wörld! €𝄞") (by unfold WellFormed; decide)

/-! ### Validator soundness -/

theorem encodeGroups_ne_nil (b : List Nat) (h : ∀ x ∈ b, x < 256) (hb : b ≠ []) :
    encodeGroups b ≠ [] := by
  intro hnil
  have := encodeGroups_length b h
  rw [hnil] at this
  have hlen : b.length ≠ 0 := fun h0 => hb (List.length_eq_zero.mp h0)
  simp only [List.length_nil] at this
  omega

theorem b64Chk_encodeGroups (b : List Nat) (h : ∀ x ∈ b, x < 256) :
    b64Chk (encodeGroups b) = true := by
  induction b using encodeGroups.induct with
  | case1 => rfl
  | case2 c1 =>
    have h1 := h c1 (by simp)
    have b1 := shiftr2_lt c1 h1
    have b2 := enc2_lt _ (and3_lt c1 h1) (0 >>> 4) (by decide)
    have b2x : (c1 &&& 3) <<< 4 < 64 := by simpa using b2
    rw [encodeGroups_one c1 h1, csym_pad]
    simp [b64Chk, stdAlpha_csym _ b1, stdAlpha_csym _ b2, stdAlpha_csym _ b2x]
  | case3 c1 c2 =>
    have h1 := h c1 (by simp)
    have h2 := h c2 (by simp)
    have b1 := shiftr2_lt c1 h1
    have b2 := enc2_lt _ (and3_lt c1 h1) _ (shiftr4_lt c2 h2)
    have b3 := enc3_lt _ (and15_lt c2 h2) (0 >>> 6) (by decide)
    have b3x : (c2 &&& 15) <<< 2 < 64 := by simpa using b3
    rw [encodeGroups_two c1 c2 h1 h2, csym_pad]
    simp [b64Chk, stdAlpha_csym _ b1, stdAlpha_csym _ b2, stdAlpha_csym _ b3,
      stdAlpha_csym _ b3x]
  | case4 c1 c2 c3 rest ih =>
    have h1 := h c1 (by simp)
    have h2 := h c2 (by simp)
    have h3 := h c3 (by simp)
    have hrest : ∀ x ∈ rest, x < 256 := fun x hx => h x (by simp [hx])
    have b1 := shiftr2_lt c1 h1
    have b2 := enc2_lt _ (and3_lt c1 h1) _ (shiftr4_lt c2 h2)
    have b3 := enc3_lt _ (and15_lt c2 h2) _ (shiftr6_lt c3 h3)
    have b4 := and63_lt c3 h3
    rw [encodeGroups_cons3 c1 c2 c3 rest h1 h2 h3]
    cases hr : rest with
    | nil =>
      simp [hr, encodeGroups, b64Chk, stdAlpha_csym _ b1, stdAlpha_csym _ b2,
        stdAlpha_csym _ b3, stdAlpha_csym _ b4]
    | cons d t =>
      have hne : encodeGroups rest ≠ [] :=
        encodeGroups_ne_nil rest hrest (by simp [hr])
      have hie : (encodeGroups rest).isEmpty = false := by
        cases hec : encodeGroups rest with
        | nil => exact absurd hec hne
        | cons a l => rfl
      rw [← hr]
      simp [b64Chk, hie, stdAlpha_csym _ b1, stdAlpha_csym _ b2,
        stdAlpha_csym _ b3, stdAlpha_csym _ b4, ih hrest]

theorem dropWhile_append_cases {p : Nat → Bool} (x y : List Nat) :
    (x ++ y).dropWhile p =
      if (x.dropWhile p).isEmpty then y.dropWhile p else x.dropWhile p ++ y := by
  induction x with
  | nil => simp
  | cons a t ih =>
    by_cases hp : p a = true
    · simp [List.dropWhile_cons, hp, ih]
    · simp [List.dropWhile_cons, hp]

theorem dropTrailingEq_append (l1 l2 : List Nat)
    (h : ∀ c ∈ l1, (c == 61) = false) :
    dropTrailingEq (l1 ++ l2) = l1 ++ dropTrailingEq l2 := by
  unfold dropTrailingEq
  rw [List.reverse_append, dropWhile_append_cases]
  have hl1 : (l1.reverse.dropWhile fun c => c == 61) = l1.reverse :=
    dropWhile_none _ fun x hx => h x (List.mem_reverse.mp hx)
  cases hd : l2.reverse.dropWhile fun c => c == 61 with
  | nil => simp [hl1]
  | cons a l => simp [List.reverse_append]

theorem b64UrlChk_encode (b : List Nat) (h : ∀ x ∈ b, x < 256) :
    b64UrlChk (dropTrailingEq
      (((encodeGroups b).map subPlusDash).map subSlashUnder)) = true := by
  induction b using encodeGroups.induct with
  | case1 => rfl
  | case2 c1 =>
    have h1 := h c1 (by simp)
    have b1 := shiftr2_lt c1 h1
    have b2 := enc2_lt _ (and3_lt c1 h1) (0 >>> 4) (by decide)
    rw [encodeGroups_one c1 h1, csym_pad]
    simp only [List.map_cons, List.map_nil, subst_pad]
    have hB : ∀ c ∈ [subSlashUnder (subPlusDash (csym (c1 >>> 2))),
        subSlashUnder (subPlusDash (csym (((c1 &&& 3) <<< 4) ||| (0 >>> 4))))],
        (c == 61) = false := by
      intro c hc
      simp only [List.mem_cons, List.not_mem_nil, or_false] at hc
      rcases hc with rfl | rfl
      · exact subst_ne_pad_csym _ b1
      · exact subst_ne_pad_csym _ b2
    rw [show (subSlashUnder (subPlusDash (csym (c1 >>> 2))) ::
        subSlashUnder (subPlusDash (csym (((c1 &&& 3) <<< 4) ||| (0 >>> 4)))) ::
        ([61, 61] : List Nat)) =
      [subSlashUnder (subPlusDash (csym (c1 >>> 2))),
        subSlashUnder (subPlusDash (csym (((c1 &&& 3) <<< 4) ||| (0 >>> 4))))] ++
        List.replicate 2 61 from rfl, dropTrailingEq_split _ _ hB]
    have b2x : (c1 &&& 3) <<< 4 < 64 := by simpa using b2
    simp [b64UrlChk, urlAlpha_subst_csym _ b1, urlAlpha_subst_csym _ b2,
      urlAlpha_subst_csym _ b2x]
  | case3 c1 c2 =>
    have h1 := h c1 (by simp)
    have h2 := h c2 (by simp)
    have b1 := shiftr2_lt c1 h1
    have b2 := enc2_lt _ (and3_lt c1 h1) _ (shiftr4_lt c2 h2)
    have b3 := enc3_lt _ (and15_lt c2 h2) (0 >>> 6) (by decide)
    rw [encodeGroups_two c1 c2 h1 h2, csym_pad]
    simp only [List.map_cons, List.map_nil, subst_pad]
    have hB : ∀ c ∈ [subSlashUnder (subPlusDash (csym (c1 >>> 2))),
        subSlashUnder (subPlusDash (csym (((c1 &&& 3) <<< 4) ||| (c2 >>> 4)))),
        subSlashUnder (subPlusDash (csym (((c2 &&& 15) <<< 2) ||| (0 >>> 6))))],
        (c == 61) = false := by
      intro c hc
      simp only [List.mem_cons, List.not_mem_nil, or_false] at hc
      rcases hc with rfl | rfl | rfl
      · exact subst_ne_pad_csym _ b1
      · exact subst_ne_pad_csym _ b2
      · exact subst_ne_pad_csym _ b3
    rw [show (subSlashUnder (subPlusDash (csym (c1 >>> 2))) ::
        subSlashUnder (subPlusDash (csym (((c1 &&& 3) <<< 4) ||| (c2 >>> 4)))) ::
        subSlashUnder (subPlusDash (csym (((c2 &&& 15) <<< 2) ||| (0 >>> 6)))) ::
        ([61] : List Nat)) =
      [subSlashUnder (subPlusDash (csym (c1 >>> 2))),
        subSlashUnder (subPlusDash (csym (((c1 &&& 3) <<< 4) ||| (c2 >>> 4)))),
        subSlashUnder (subPlusDash (csym (((c2 &&& 15) <<< 2) ||| (0 >>> 6))))] ++
        List.replicate 1 61 from rfl, dropTrailingEq_split _ _ hB]
    have b3x : (c2 &&& 15) <<< 2 < 64 := by simpa using b3
    simp [b64UrlChk, urlAlpha_subst_csym _ b1, urlAlpha_subst_csym _ b2,
      urlAlpha_subst_csym _ b3, urlAlpha_subst_csym _ b3x]
  | case4 c1 c2 c3 rest ih =>
    have h1 := h c1 (by simp)
    have h2 := h c2 (by simp)
    have h3 := h c3 (by simp)
    have hrest : ∀ x ∈ rest, x < 256 := fun x hx => h x (by simp [hx])
    have b1 := shiftr2_lt c1 h1
    have b2 := enc2_lt _ (and3_lt c1 h1) _ (shiftr4_lt c2 h2)
    have b3 := enc3_lt _ (and15_lt c2 h2) _ (shiftr6_lt c3 h3)
    have b4 := and63_lt c3 h3
    rw [encodeGroups_cons3 c1 c2 c3 rest h1 h2 h3]
    simp only [List.map_cons]
    have hB : ∀ c ∈ [subSlashUnder (subPlusDash (csym (c1 >>> 2))),
        subSlashUnder (subPlusDash (csym (((c1 &&& 3) <<< 4) ||| (c2 >>> 4)))),
        subSlashUnder (subPlusDash (csym (((c2 &&& 15) <<< 2) ||| (c3 >>> 6)))),
        subSlashUnder (subPlusDash (csym (c3 &&& 63)))], (c == 61) = false := by
      intro c hc
      simp only [List.mem_cons, List.not_mem_nil, or_false] at hc
      rcases hc with rfl | rfl | rfl | rfl
      · exact subst_ne_pad_csym _ b1
      · exact subst_ne_pad_csym _ b2
      · exact subst_ne_pad_csym _ b3
      · exact subst_ne_pad_csym _ b4
    rw [show (subSlashUnder (subPlusDash (csym (c1 >>> 2))) ::
        subSlashUnder (subPlusDash (csym (((c1 &&& 3) <<< 4) ||| (c2 >>> 4)))) ::
        subSlashUnder (subPlusDash (csym (((c2 &&& 15) <<< 2) ||| (c3 >>> 6)))) ::
        subSlashUnder (subPlusDash (csym (c3 &&& 63))) ::
        ((encodeGroups rest).map subPlusDash).map subSlashUnder) =
      [subSlashUnder (subPlusDash (csym (c1 >>> 2))),
        subSlashUnder (subPlusDash (csym (((c1 &&& 3) <<< 4) ||| (c2 >>> 4)))),
        subSlashUnder (subPlusDash (csym (((c2 &&& 15) <<< 2) ||| (c3 >>> 6)))),
        subSlashUnder (subPlusDash (csym (c3 &&& 63)))] ++
        ((encodeGroups rest).map subPlusDash).map subSlashUnder from rfl,
      dropTrailingEq_append _ _ hB]
    have ih2 : b64UrlChk (dropTrailingEq
        ((encodeGroups rest).map (subSlashUnder ∘ subPlusDash))) = true := by
      rw [← List.map_map]
      exact ih hrest
    simp [b64UrlChk, urlAlpha_subst_csym _ b1, urlAlpha_subst_csym _ b2,
      urlAlpha_subst_csym _ b3, urlAlpha_subst_csym _ b4, ih hrest, ih2]

/-- **C5.** For every well-formed string `s`, `isValid(encode(s))` is true,
and `isValid(encode(s, {urlSafe: true, omitPadding: true}), {urlSafe: true})`
is true. -/
theorem base64_C5_validator_sound (s : List Nat) (h : WellFormed s) :
    isValid (encode s {}) {} = true ∧
      isValid (encode s { urlSafe := true, omitPadding := true })
        { urlSafe := true } = true := by
  have hb : ∀ x ∈ utf8Encode s, x < 256 :=
    utf8Encode_lt s fun v hv => (h v hv).1
  constructor
  · show b64Chk (encodeGroups (utf8Encode s)) = true
    exact b64Chk_encodeGroups _ hb
  · show b64UrlChk (dropTrailingEq
      (((encodeGroups (utf8Encode s)).map subPlusDash).map subSlashUnder)) = true
    exact b64UrlChk_encode _ hb

/-- Witness for C5 at a concrete string exercising both alphabets. -/
theorem base64_C5_validator_sound_witness :
    isValid (encode (strOf "a+b/c=é") {}) {} = true ∧
      isValid (encode (strOf "a+b/c=é") { urlSafe := true, omitPadding := true })
        { urlSafe := true } = true :=
  base64_C5_validator_sound (strOf "a+b/c=é") (by unfold WellFormed; decide)

/-! ### Sanitization and padding order -/

theorem sanitize_append (a b : List Nat) :
    sanitize (a ++ b) = sanitize a ++ sanitize b :=
  List.filter_append a b

theorem sanitize_replicate_pad (k : Nat) :
    sanitize (List.replicate k 61) = List.replicate k 61 :=
  List.filter_eq_self.mpr fun _ hc => by rw [List.eq_of_mem_replicate hc]; rfl

theorem sanitize_idem (t : List Nat) : sanitize (sanitize t) = sanitize t :=
  List.filter_eq_self.mpr fun _ hc => List.of_mem_filter hc

/-- **C4 counterexample.** Removing the out-of-alphabet characters from
`"SGVs###bG8="` yields `"SGVsbG8="`, yet `decode` does not give the same
result on the two strings: the padding appended before sanitization is
computed from the raw length, so the claimed equality fails. -/
theorem base64_C4_counterexample :
    sanitize (strOf "SGVs###bG8=") = strOf "SGVsbG8=" ∧
      decode (strOf "SGVs###bG8=") {} ≠ decode (strOf "SGVsbG8=") {} := by
  constructor
  · decide
  · decide

/-- **C4 (amended).** `decode(t)` never raises, and it equals `decode`
applied to `t` with every character outside the 65-symbol set removed
whenever the number of removed characters is a multiple of 4 (re-padding
is computed from the raw length before sanitization, so the residue of
the removed count mod 4 is what matters); in particular
`decode("SGVs###bG8=")` raises no error, but returns `"Hello"` followed
by three NUL bytes rather than `decode("SGVsbG8=")`. -/
theorem base64_C4_amended (t : List Nat)
    (h : (t.length - (sanitize t).length) % 4 = 0) :
    decode t {} = decode (sanitize t) {} ∧
      decode (strOf "SGVs###bG8=") {} = strOf "Hello" ++ [0, 0, 0] := by
  refine ⟨?_, by decide⟩
  show utf8Decode (decodeGroups (sanitize (padEq t))) =
    utf8Decode (decodeGroups (sanitize (padEq (sanitize t))))
  have hle : (sanitize t).length ≤ t.length := List.length_filter_le _ t
  have key : sanitize (padEq t) = sanitize (padEq (sanitize t)) := by
    unfold padEq
    rw [sanitize_append, sanitize_append, sanitize_replicate_pad,
      sanitize_replicate_pad, sanitize_idem]
    congr 2
    omega
  rw [key]

/-- Witness for the amended C4 at an input with four discarded characters. -/
theorem base64_C4_amended_witness :
    decode (strOf "SGVs####bG8=") {} = decode (sanitize (strOf "SGVs####bG8=")) {} ∧
      decode (strOf "SGVs###bG8=") {} = strOf "Hello" ++ [0, 0, 0] :=
  base64_C4_amended (strOf "SGVs####bG8=") (by decide)

/-! ### Stream buffer invariants -/

theorem encTransform_buffer_lt (buffer : List Nat) (c : StreamChunk) :
    ((encTransform buffer c).2).length < 3 := by
  show ((buffer ++ chunkToBytes c).drop
    ((buffer ++ chunkToBytes c).length - (buffer ++ chunkToBytes c).length % 3)).length < 3
  rw [List.length_drop]
  omega

theorem decTransform_buffer_lt (buffer chunk : List Nat) :
    ((decTransform buffer chunk).2).length < 4 := by
  show ((buffer ++ chunk).drop
    ((buffer ++ chunk).length - (buffer ++ chunk).length % 4)).length < 4
  rw [List.length_drop]
  omega

theorem encBuffers_lt (buffer : List Nat) (chunks : List StreamChunk)
    (h : buffer.length < 3) : ∀ b ∈ encBuffers buffer chunks, b.length < 3 := by
  induction chunks generalizing buffer with
  | nil =>
    intro b hb
    simp only [encBuffers, List.mem_singleton] at hb
    rw [hb]
    exact h
  | cons c cs ih =>
    intro b hb
    simp only [encBuffers, List.mem_cons] at hb
    rcases hb with rfl | hb
    · exact h
    · exact ih _ (encTransform_buffer_lt buffer c) b hb

theorem decBuffers_lt (buffer : List Nat) (chunks : List (List Nat))
    (h : buffer.length < 4) : ∀ b ∈ decBuffers buffer chunks, b.length < 4 := by
  induction chunks generalizing buffer with
  | nil =>
    intro b hb
    simp only [decBuffers, List.mem_singleton] at hb
    rw [hb]
    exact h
  | cons c cs ih =>
    intro b hb
    simp only [decBuffers, List.mem_cons] at hb
    rcases hb with rfl | hb
    · exact h
    · exact ih _ (decTransform_buffer_lt buffer c) b hb

/-- **C8.** At every Open-state observation point (after construction and
after each fully processed chunk), the `Base64EncodeStream` buffer holds
strictly fewer than 3 bytes and the `Base64DecodeStream` buffer holds
strictly fewer than 4 characters, for every sequence of pushed chunks. -/
theorem base64_C8_buffer_invariant (encChunks : List StreamChunk)
    (decChunks : List (List Nat)) :
    (∀ b ∈ encBuffers [] encChunks, b.length < 3) ∧
      (∀ b ∈ decBuffers [] decChunks, b.length < 4) :=
  ⟨encBuffers_lt [] encChunks (by simp), decBuffers_lt [] decChunks (by simp)⟩

/-- Witness for C8: concrete buffer states observed mid-stream. -/
theorem base64_C8_buffer_invariant_witness :
    ([108] ∈ encBuffers [] [StreamChunk.str (strOf "hell")] ∧
      ([108] : List Nat).length < 3) ∧
      (strOf "b" ∈ decBuffers [] [strOf "SGVsb"] ∧ (strOf "b").length < 4) :=
  ⟨⟨by decide,
      (base64_C8_buffer_invariant [StreamChunk.str (strOf "hell")] [strOf "SGVsb"]).1
        [108] (by decide)⟩,
    ⟨by decide,
      (base64_C8_buffer_invariant [StreamChunk.str (strOf "hell")] [strOf "SGVsb"]).2
        (strOf "b") (by decide)⟩⟩

/-! ### Input-type guards -/

/-- **C9.** `encode` raises `TypeError` for every non-string input and
nothing for strings; `decode` and `toUint8Array` raise
`InvalidBase64Error` for every non-string input and nothing for strings
(malformed-but-string input is not rejected); `isValid` returns `false`,
without raising, for every non-string input. -/
theorem base64_C9_type_errors (v : JSValue) (eo : Base64EncodeOptions)
    (dopts : Base64DecodeOptions) (h : typeofIsString v = false) :
    (encodeJS v eo = .error .typeError ∧
      decodeJS v dopts = .error .invalidBase64Error ∧
      toUint8ArrayJS v dopts = .error .invalidBase64Error ∧
      isValidJS v dopts = false) ∧
      ∀ s : List Nat, encodeJS (.str s) eo = .ok (encode s eo) ∧
        decodeJS (.str s) dopts = .ok (decode s dopts) ∧
        toUint8ArrayJS (.str s) dopts = .ok (toUint8Array s dopts) := by
  cases v
  case str s => simp [typeofIsString] at h
  all_goals exact ⟨⟨rfl, rfl, rfl, rfl⟩, fun s => ⟨rfl, rfl, rfl⟩⟩

/-- Witness for C9 at a numeric input. -/
theorem base64_C9_type_errors_witness :
    (encodeJS (.num 5) {} = .error .typeError ∧
      decodeJS (.num 5) {} = .error .invalidBase64Error ∧
      toUint8ArrayJS (.num 5) {} = .error .invalidBase64Error ∧
      isValidJS (.num 5) {} = false) ∧
      ∀ s : List Nat, encodeJS (.str s) {} = .ok (encode s {}) ∧
        decodeJS (.str s) {} = .ok (decode s {}) ∧
        toUint8ArrayJS (.str s) {} = .ok (toUint8Array s {}) :=
  base64_C9_type_errors (.num 5) {} {} rfl

/-- **C10.** `fromUint8Array` accepts only values constructed directly as
`Uint8Array`: every value whose constructor name is not exactly
`Uint8Array` — including instances of subclasses such as Node's `Buffer`,
though they are byte sequences — raises a `TypeError`. -/
theorem base64_C10_uint8array_guard (v : U8Candidate) (opts : Base64EncodeOptions)
    (h : candCtorName v ≠ "Uint8Array") :
    fromUint8ArrayJS v opts = .error .typeError ∧
      (∀ b : List Nat, fromUint8ArrayJS (.nodeBuffer b) opts = .error .typeError) ∧
      ∀ b : List Nat, fromUint8ArrayJS (.uint8Array b) opts =
        .ok (fromUint8Array b opts) := by
  refine ⟨?_, fun b => ?_, fun b => rfl⟩
  · unfold fromUint8ArrayJS
    rw [if_pos (Or.inr h)]
  · unfold fromUint8ArrayJS
    rw [if_pos (Or.inr (show candCtorName (U8Candidate.nodeBuffer b) ≠ "Uint8Array"
      by simp [candCtorName]))]

/-- Witness for C10 at a Node `Buffer` carrying bytes. -/
theorem base64_C10_uint8array_guard_witness :
    fromUint8ArrayJS (.nodeBuffer [72, 105]) {} = .error .typeError ∧
      (∀ b : List Nat, fromUint8ArrayJS (.nodeBuffer b) {} = .error .typeError) ∧
      ∀ b : List Nat, fromUint8ArrayJS (.uint8Array b) {} =
        .ok (fromUint8Array b {}) :=
  base64_C10_uint8array_guard (.nodeBuffer [72, 105]) {} (by decide)

/-! ### Streaming equivalence -/

theorem encodeGroups_append (a b : List Nat) (h : a.length % 3 = 0) :
    encodeGroups (a ++ b) = encodeGroups a ++ encodeGroups b := by
  induction a using encodeGroups.induct with
  | case1 => rfl
  | case2 c1 => simp at h
  | case3 c1 c2 => simp at h
  | case4 c1 c2 c3 rest ih =>
    have hr : rest.length % 3 = 0 := by
      simp only [List.length_cons] at h
      omega
    simp only [List.cons_append, encodeGroups, List.append_eq, ih hr, List.append_assoc]

theorem decodeGroups_append (a b : List Nat) (h : a.length % 4 = 0) :
    decodeGroups (a ++ b) = decodeGroups a ++ decodeGroups b := by
  induction a using decodeGroups.induct with
  | case1 => rfl
  | case2 c1 => simp at h
  | case3 c1 c2 => simp at h
  | case4 c1 c2 c3 => simp at h
  | case5 c1 c2 c3 c4 rest ih =>
    have hr : rest.length % 4 = 0 := by
      simp only [List.length_cons] at h
      omega
    simp only [List.cons_append, decodeGroups, List.append_eq, ih hr, List.append_assoc]

theorem utf8Encode_append (s t : List Nat) :
    utf8Encode (s ++ t) = utf8Encode s ++ utf8Encode t := by
  induction s with
  | nil => rfl
  | cons v vs ih => simp only [List.cons_append, utf8Encode, List.append_eq, ih, List.append_assoc]

theorem runEncodeStreamFrom_eq (chunks : List StreamChunk) (buffer : List Nat) :
    runEncodeStreamFrom buffer chunks =
      encodeGroups (buffer ++ flattenL (chunks.map chunkToBytes)) := by
  induction chunks generalizing buffer with
  | nil =>
    show encFlush buffer = encodeGroups (buffer ++ flattenL [])
    rw [show flattenL [] = [] from rfl, List.append_nil]
    cases buffer with
    | nil => rfl
    | cons x t =>
      show (if (x :: t).length > 0 then fromUint8Array (x :: t) {} else []) = _
      rw [if_pos (by simp)]
      rfl
  | cons c cs ih =>
    show (encTransform buffer c).1 ++ runEncodeStreamFrom (encTransform buffer c).2 cs
      = encodeGroups (buffer ++ flattenL (chunkToBytes c :: cs.map chunkToBytes))
    have hout : (encTransform buffer c).1 = encodeGroups ((buffer ++ chunkToBytes c).take
        ((buffer ++ chunkToBytes c).length - (buffer ++ chunkToBytes c).length % 3)) := by
      show (if ((buffer ++ chunkToBytes c).take _).length > 0
        then fromUint8Array _ {} else []) = _
      by_cases h0 : (((buffer ++ chunkToBytes c).take
          ((buffer ++ chunkToBytes c).length -
            (buffer ++ chunkToBytes c).length % 3))).length > 0
      · rw [if_pos h0]
        rfl
      · have h00 : (((buffer ++ chunkToBytes c).take
            ((buffer ++ chunkToBytes c).length -
              (buffer ++ chunkToBytes c).length % 3))).length = 0 := by omega
        rw [if_neg h0, List.length_eq_zero.mp h00]
        rfl
    have hbuf : (encTransform buffer c).2 = (buffer ++ chunkToBytes c).drop
        ((buffer ++ chunkToBytes c).length - (buffer ++ chunkToBytes c).length % 3) := rfl
    rw [hout, hbuf, ih]
    rw [show flattenL (chunkToBytes c :: cs.map chunkToBytes) =
      chunkToBytes c ++ flattenL (cs.map chunkToBytes) from rfl]
    rw [← List.append_assoc, ← encodeGroups_append _ _ (by
      rw [List.length_take]
      omega)]
    rw [← List.append_assoc, List.take_append_drop]

theorem runEncodeStream_oneshot (chunks : List StreamChunk) :
    runEncodeStream chunks =
      fromUint8Array (flattenL (chunks.map chunkToBytes)) {} :=
  runEncodeStreamFrom_eq chunks []

theorem chunksBytes_of_strs (ss : List (List Nat)) :
    flattenL ((ss.map StreamChunk.str).map chunkToBytes) = utf8Encode (flattenL ss) := by
  induction ss with
  | nil => rfl
  | cons s t ih =>
    show utf8Encode s ++ flattenL ((t.map StreamChunk.str).map chunkToBytes) =
      utf8Encode (s ++ flattenL t)
    rw [utf8Encode_append, ih]

theorem toUint8Array_clean (t : List Nat) (h4 : t.length % 4 = 0)
    (hs : ∀ c ∈ t, isB64SymbolOrPad c = true) :
    toUint8Array t {} = decodeGroups t := by
  show decodeGroups (sanitize (padEq t)) = decodeGroups t
  rw [padEq_eq_self t h4, sanitize_eq_self t hs]

theorem toUint8Array_append_clean (a b : List Nat) (ha4 : a.length % 4 = 0)
    (hsa : ∀ c ∈ a, isB64SymbolOrPad c = true) :
    toUint8Array (a ++ b) {} = toUint8Array a {} ++ toUint8Array b {} := by
  show decodeGroups (sanitize (padEq (a ++ b))) = _
  have hpad : padEq (a ++ b) = a ++ padEq b := by
    unfold padEq
    rw [List.length_append, List.append_assoc]
    congr 3
    omega
  rw [hpad, sanitize_append, sanitize_eq_self a hsa, decodeGroups_append _ _ ha4,
    toUint8Array_clean a ha4 hsa]
  rfl

theorem decode_append_clean (a b : List Nat) (ha4 : a.length % 4 = 0)
    (hsa : ∀ c ∈ a, isB64SymbolOrPad c = true)
    (hascii : ∀ x ∈ toUint8Array a {}, x < 128) :
    decode (a ++ b) {} = decode a {} ++ decode b {} := by
  show utf8Decode (toUint8Array (a ++ b) {}) = _
  rw [toUint8Array_append_clean a b ha4 hsa]
  exact utf8DecodeGo_ascii_append _ _ hascii

theorem runDecodeStreamFrom_eq (parts : List (List Nat)) (buffer : List Nat)
    (hsym : ∀ c ∈ buffer ++ flattenL parts, isB64SymbolOrPad c = true)
    (hascii : ∀ x ∈ toUint8Array (buffer ++ flattenL parts) {}, x < 128) :
    runDecodeStreamFrom buffer parts = decode (buffer ++ flattenL parts) {} := by
  induction parts generalizing buffer with
  | nil =>
    show decFlush buffer = decode (buffer ++ flattenL []) {}
    rw [show flattenL [] = [] from rfl, List.append_nil]
    cases buffer with
    | nil => rfl
    | cons x t =>
      show (if (x :: t).length > 0 then decode (x :: t) {} else []) = _
      rw [if_pos (by simp)]
  | cons c cs ih =>
    have hflat : buffer ++ flattenL (c :: cs) = (buffer ++ c) ++ flattenL cs := by
      rw [show flattenL (c :: cs) = c ++ flattenL cs from rfl, List.append_assoc]
    have hwhole : (buffer ++ c) ++ flattenL cs =
        ((buffer ++ c).take ((buffer ++ c).length - (buffer ++ c).length % 4)) ++
          (((buffer ++ c).drop ((buffer ++ c).length - (buffer ++ c).length % 4)) ++
            flattenL cs) := by
      rw [← List.append_assoc, List.take_append_drop]
    have hK4 : ((buffer ++ c).take
        ((buffer ++ c).length - (buffer ++ c).length % 4)).length % 4 = 0 := by
      rw [List.length_take]
      omega
    rw [hflat, hwhole] at hsym hascii
    have hsymtake : ∀ x ∈ (buffer ++ c).take
        ((buffer ++ c).length - (buffer ++ c).length % 4), isB64SymbolOrPad x = true :=
      fun x hx => hsym x (List.mem_append_left _ hx)
    rw [toUint8Array_append_clean _ _ hK4 hsymtake] at hascii
    have hasciitake : ∀ x ∈ toUint8Array ((buffer ++ c).take
        ((buffer ++ c).length - (buffer ++ c).length % 4)) {}, x < 128 :=
      fun x hx => hascii x (List.mem_append_left _ hx)
    show (decTransform buffer c).1 ++
      runDecodeStreamFrom (decTransform buffer c).2 cs = _
    rw [hflat, hwhole, decode_append_clean _ _ hK4 hsymtake hasciitake]
    have hbuf : (decTransform buffer c).2 = (buffer ++ c).drop
        ((buffer ++ c).length - (buffer ++ c).length % 4) := rfl
    congr 1
    · show (if ((buffer ++ c).take
          ((buffer ++ c).length - (buffer ++ c).length % 4)).length > 0
        then decode ((buffer ++ c).take
          ((buffer ++ c).length - (buffer ++ c).length % 4)) {} else []) = _
      by_cases h0 : ((buffer ++ c).take
          ((buffer ++ c).length - (buffer ++ c).length % 4)).length > 0
      · rw [if_pos h0]
      · have h00 : ((buffer ++ c).take
            ((buffer ++ c).length - (buffer ++ c).length % 4)).length = 0 := by omega
        rw [if_neg h0, List.length_eq_zero.mp h00]
        rfl
    · rw [hbuf]
      exact ih _ (fun x hx => hsym x (List.mem_append_right _ hx))
        (fun x hx => hascii x (List.mem_append_right _ hx))

/-- **C2 counterexample.** Pushing the single chunk `"##AAAA"` through
`Base64DecodeStream` (flush run once at completion) does not yield the
one-shot decoding of the concatenated input: the stream decodes the
leading group `"##AA"` separately, so sanitization and re-padding align
differently than in the one-shot call. -/
theorem base64_C2_counterexample :
    runDecodeStream [strOf "##AAAA"] ≠ decode (flattenL [strOf "##AAAA"]) {} := by
  decide

/-- **C2 (amended).** The encode-stream equivalence holds for every finite
input and every chunk partition: streaming through `Base64EncodeStream`
and concatenating the outputs (flush run once at completion) equals the
one-shot `fromUint8Array` of the concatenated chunk bytes, and for pure
string input the one-shot `encode` of the concatenated string. The
decode-stream equivalence holds when every character of the concatenated
input lies in the 65-symbol set and every decoded byte is ASCII (below
128); outside these conditions group misalignment (out-of-alphabet
characters) or splitting of multi-byte UTF-8 sequences across emitted
chunks makes it fail, as the counterexample shows. -/
theorem base64_C2_amended (chunks : List StreamChunk) (ss parts : List (List Nat))
    (hsym : ∀ c ∈ flattenL parts, isB64SymbolOrPad c = true)
    (hascii : ∀ x ∈ toUint8Array (flattenL parts) {}, x < 128) :
    runEncodeStream chunks = fromUint8Array (flattenL (chunks.map chunkToBytes)) {} ∧
      runEncodeStream (ss.map StreamChunk.str) = encode (flattenL ss) {} ∧
      runDecodeStream parts = decode (flattenL parts) {} := by
  refine ⟨runEncodeStream_oneshot chunks, ?_, ?_⟩
  · rw [runEncodeStream_oneshot, chunksBytes_of_strs]
    rfl
  · exact runDecodeStreamFrom_eq parts [] hsym hascii

/-- Witness for the amended C2 at concrete chunk partitions. -/
theorem base64_C2_amended_witness :
    (∀ c ∈ flattenL [strOf "SGVs", strOf "bG8="], isB64SymbolOrPad c = true) ∧
      (∀ x ∈ toUint8Array (flattenL [strOf "SGVs", strOf "bG8="]) {}, x < 128) ∧
      (runEncodeStream [StreamChunk.bytes [255, 0], StreamChunk.str (strOf "A")] =
        fromUint8Array (flattenL ([StreamChunk.bytes [255, 0],
          StreamChunk.str (strOf "A")].map chunkToBytes)) {} ∧
        runEncodeStream ([strOf "He", strOf "llo"].map StreamChunk.str) =
          encode (flattenL [strOf "He", strOf "llo"]) {} ∧
        runDecodeStream [strOf "SGVs", strOf "bG8="] =
          decode (flattenL [strOf "SGVs", strOf "bG8="]) {}) :=
  ⟨by decide, by decide,
    base64_C2_amended [StreamChunk.bytes [255, 0], StreamChunk.str (strOf "A")]
      [strOf "He", strOf "llo"] [strOf "SGVs", strOf "bG8="] (by decide) (by decide)⟩

/-! ### Data-URL parsing -/

theorem fromDataURL_pos (mime payload : List Nat) (hm : MimeOK mime)
    (hp : ∀ c ∈ payload, isLineTerm c = false) :
    fromDataURL (strOf "data:" ++ mime ++ strOf ";base64," ++ payload) =
      some (decode payload {}, mime) := by
  obtain ⟨h1, h2, h3⟩ := hm
  rw [List.append_assoc, List.append_assoc]
  simp only [fromDataURL]
  rw [show (5 : Nat) = (strOf "data:").length from rfl, List.take_left,
    List.drop_left, if_pos rfl,
    takeWhile_append_all mime _ h3,
    show strOf ";base64," ++ payload = 59 :: (strOf "base64," ++ payload) from rfl,
    List.takeWhile_cons, if_neg (show ¬(isMimeChar 59 = true) by decide),
    List.append_nil,
    show (59 : Nat) :: (strOf "base64," ++ payload) = strOf ";base64," ++ payload
      from rfl,
    List.drop_left,
    show (8 : Nat) = (strOf ";base64,").length from rfl, List.take_left,
    List.drop_left]
  have hall : payload.all (fun c => !isLineTerm c) = true :=
    List.all_eq_true.mpr fun c hc => by rw [hp c hc]; rfl
  rw [if_pos ⟨h1, h2, rfl, hall⟩]

theorem fromDataURL_shape (u : List Nat) (h : fromDataURL u ≠ none) :
    DataURLShapeNoNL u := by
  simp only [fromDataURL] at h
  by_cases h5 : u.take 5 = strOf "data:"
  · rw [if_pos h5] at h
    by_cases hcond : 1 ≤ ((u.drop 5).takeWhile isMimeChar).length ∧
        ((u.drop 5).takeWhile isMimeChar).length ≤ 100 ∧
        ((u.drop 5).drop ((u.drop 5).takeWhile isMimeChar).length).take 8 =
          strOf ";base64," ∧
        (((u.drop 5).drop ((u.drop 5).takeWhile isMimeChar).length).drop 8).all
          (fun c => !isLineTerm c)
    · obtain ⟨hc1, hc2, hc3, hc4⟩ := hcond
      refine ⟨(u.drop 5).takeWhile isMimeChar,
        ((u.drop 5).drop ((u.drop 5).takeWhile isMimeChar).length).drop 8,
        ⟨hc1, hc2, fun x hx => List.mem_takeWhile_imp hx⟩, fun c hc => ?_, ?_⟩
      · have := List.all_eq_true.mp hc4 c hc
        simpa using this
      · have ht : (u.drop 5).take ((u.drop 5).takeWhile isMimeChar).length =
            (u.drop 5).takeWhile isMimeChar :=
          (List.prefix_iff_eq_take.mp (List.takeWhile_prefix _)).symm
        have htad := List.take_append_drop
          ((u.drop 5).takeWhile isMimeChar).length (u.drop 5)
        rw [ht] at htad
        have hafter2 := List.take_append_drop 8
          ((u.drop 5).drop ((u.drop 5).takeWhile isMimeChar).length)
        rw [hc3] at hafter2
        have e1 : u = u.take 5 ++ u.drop 5 := (List.take_append_drop 5 u).symm
        rw [h5] at e1
        rw [← htad] at e1
        rw [← hafter2] at e1
        exact e1.trans (by simp [List.append_assoc])
    · rw [if_neg hcond] at h
      exact absurd rfl h
  · rw [if_neg h5] at h
    exact absurd rfl h

/-- **C7 counterexample.** The input `"data:a;base64,\n"` matches the
structure the claim describes (MIME type `"a"`, payload the lone newline),
yet `fromDataURL` raises `InvalidDataURLError`: the regex dot does not
match a line terminator, a restriction absent from the claimed structure. -/
theorem base64_C7_counterexample :
    DataURLShape (strOf "data:a;base64," ++ [10]) ∧
      fromDataURL (strOf "data:a;base64," ++ [10]) = none := by
  constructor
  · exact ⟨strOf "a", [10], ⟨by decide, by decide, by decide⟩, by decide⟩
  · decide

/-- **C7 (amended).** `toDataURL(value, mimeType, options)` returns exactly
`"data:" + mimeType + ";base64," + encode(value, options)`; `fromDataURL`
raises `InvalidDataURLError` exactly when the input does not match the
structure `data:<mime>;base64,<payload>` with a MIME type of 1 to 100
characters drawn from word characters, `/`, `-`, `+` and `.` and a payload
free of line terminators; on a match it returns the payload decoded with
default (non-URL-safe) options together with the extracted MIME type — in
particular the two literal scenarios of the claim hold. -/
theorem base64_C7_dataurl_amended (u v m mime payload : List Nat)
    (o : Base64EncodeOptions) (hm : MimeOK mime)
    (hp : ∀ c ∈ payload, isLineTerm c = false) :
    toDataURL v m o = strOf "data:" ++ m ++ strOf ";base64," ++ encode v o ∧
      fromDataURL (strOf "data:" ++ mime ++ strOf ";base64," ++ payload) =
        some (decode payload {}, mime) ∧
      (fromDataURL u = none ↔ ¬DataURLShapeNoNL u) ∧
      fromDataURL (strOf "data:text/plain;base64,SGVsbG8sIHdvcmxkIQ==") =
        some (strOf "Hello, world!", strOf "text/plain") ∧
      fromDataURL (strOf "not a data url") = none := by
  refine ⟨rfl, fromDataURL_pos mime payload hm hp, ⟨?_, ?_⟩, by decide, by decide⟩
  · intro hn hshape
    obtain ⟨mi, pl, hmi, hpl, rfl⟩ := hshape
    rw [fromDataURL_pos mi pl hmi hpl] at hn
    simp at hn
  · intro hns
    cases hfd : fromDataURL u with
    | none => rfl
    | some val => exact absurd (fromDataURL_shape u (by rw [hfd]; simp)) hns

/-- Witness for the amended C7 at concrete inputs. -/
theorem base64_C7_dataurl_amended_witness :
    MimeOK (strOf "text/plain") ∧
      (∀ c ∈ strOf "SGVsbG8=", isLineTerm c = false) ∧
      (toDataURL (strOf "hi") (strOf "text/plain") {} =
        strOf "data:" ++ strOf "text/plain" ++ strOf ";base64," ++
          encode (strOf "hi") {} ∧
        fromDataURL (strOf "data:" ++ strOf "text/plain" ++ strOf ";base64," ++
          strOf "SGVsbG8=") =
          some (decode (strOf "SGVsbG8=") {}, strOf "text/plain") ∧
        (fromDataURL (strOf "xyz") = none ↔ ¬DataURLShapeNoNL (strOf "xyz")) ∧
        fromDataURL (strOf "data:text/plain;base64,SGVsbG8sIHdvcmxkIQ==") =
          some (strOf "Hello, world!", strOf "text/plain") ∧
        fromDataURL (strOf "not a data url") = none) :=
  ⟨by unfold MimeOK; decide, by decide,
    base64_C7_dataurl_amended (strOf "xyz") (strOf "hi") (strOf "text/plain")
      (strOf "text/plain") (strOf "SGVsbG8=") {} (by unfold MimeOK; decide)
      (by decide)⟩

end Base64

namespace Base64

/-- The literal scenarios of the specification, checked by evaluation of
the embedded engine. -/
theorem literal_scenarios :
    fromUint8Array (strOf "Hello, world!") {} = strOf "SGVsbG8sIHdvcmxkIQ==" ∧
      toUint8Array (strOf "SGVsbG8sIHdvcmxkIQ==") {} = strOf "Hello, world!" ∧
      decode (strOf "SGVsbG8sIHdvcmxkIQ==") {} = strOf "Hello, world!" ∧
      encode (strOf "a+b/c=") { urlSafe := true, omitPadding := true } =
        strOf "YStiL2M9" ∧
      decode (strOf "YStiL2M9") { urlSafe := true } = strOf "a+b/c=" ∧
      isValid (strOf "SGVsbG8sIHdvcmxkIQ") { urlSafe := true } = true ∧
      isValid (strOf "not+base64") { urlSafe := true } = false ∧
      runEncodeStream [StreamChunk.str (strOf "Hello"), StreamChunk.str (strOf ", "),
        StreamChunk.str (strOf "world!")] = strOf "SGVsbG8sIHdvcmxkIQ==" :=
  ⟨by decide, by decide, by decide, by decide, by decide, by decide, by decide,
    by decide⟩

end Base64
